import Mathlib

/-!
Verification of the ev-price-tracker backend.

This file gives a shallow embedding of the backend's core operations:
the listing-text normalisation helpers of `scraper/base.py`, the three
per-site fragment pipelines (`scraper/carscom.py`, `scraper/cargurus.py`,
`scraper/autotrader.py`), the persistence operations `save_listing` and
`update_price_history` of `database.py`, and the orchestration
(`run_scrape`, `trigger_scrape`) of `main.py`.  Stateful code is embedded
by explicit state passing: the listings table and the price_history table
are lists of rows, and one scrape run is a fold over the models and
registered sources, with the network-dependent behaviour of an adapter
session (which fragments it yielded and whether it raised) supplied as an
oracle.  Theorems about these definitions settle the testable properties
of the specification.
-/

namespace EvTracker

/-- Python `\s` on the ASCII range: the whitespace class used by the
regular expressions in the scrapers. -/
def isPyWs (c : Char) : Bool :=
  c = ' ' || c = '\t' || c = '\n' || c = '\r' || c = '\x0b' || c = '\x0c'

/-- Value of a string of decimal digits, as computed by Python `int`. -/
def digitsToNat (l : List Char) : Nat :=
  l.foldl (fun n c => n * 10 + (c.toNat - 48)) 0

/-- `BaseScraper.parse_price`: keep only the digit characters and parse
them as an integer; an empty or digit-free string gives the sentinel 0. -/
def parse_price (s : String) : Int :=
  let cleaned := s.toList.filter Char.isDigit
  if cleaned.isEmpty then 0 else (digitsToNat cleaned : Int)

/-- `BaseScraper.parse_mileage`: keep only the digit characters and parse
them; an empty or digit-free string gives null. -/
def parse_mileage (s : String) : Option Nat :=
  if s = "" then none
  else
    let cleaned := s.toList.filter Char.isDigit
    if cleaned.isEmpty then none else some (digitsToNat cleaned)

/-- Leftmost match of the regular expression `20[0-2]\d`: scan for a
four-character window reading `2`, `0`, a digit up to `2`, any digit. -/
def findYear : List Char → Option Nat
  | c0 :: c1 :: c2 :: c3 :: rest =>
    if c0 = '2' ∧ c1 = '0' ∧ ('0' ≤ c2 ∧ c2 ≤ '2') ∧ c3.isDigit then
      some (2000 + (c2.toNat - 48) * 10 + (c3.toNat - 48))
    else findYear (c1 :: c2 :: c3 :: rest)
  | _ => none

/-- `BaseScraper.parse_year`: first plausible four-digit year in the text,
else null. -/
def parse_year (s : String) : Option Nat :=
  findYear s.toList

/-- A character matched by the class `[\d,]`. -/
def isDigitOrComma (c : Char) : Bool :=
  c.isDigit || c = ','

/-- Leftmost match of `\$[\d,]+`: the first `$` that is followed by at
least one digit-or-comma character, returning that maximal run. -/
def findDollarRun : List Char → Option (List Char)
  | [] => none
  | c :: rest =>
    if c = '$' then
      let run := rest.takeWhile isDigitOrComma
      if run.isEmpty then findDollarRun rest else some run
    else findDollarRun rest

/-- Price extracted from a listing fragment's text, as computed by both
`CarsComScraper._parse_listing_text` and `CarGurusScraper._parse_listing`:
`parse_price` applied to the first `\$[\d,]+` match, or 0 when the
pattern does not occur. -/
def priceFromText (t : String) : Int :=
  match findDollarRun t.toList with
  | none => 0
  | some run => parse_price (String.mk ('$' :: run))

/-- Match of `([\d,]+)\s*mi` (case-insensitive) anchored at the head of
the list, returning the captured digit-and-comma group.  The group is a
maximal `[\d,]` run: regex backtracking inside the run can never help,
because the characters of the run are neither whitespace nor `m`. -/
def matchMileAt : List Char → Option (List Char)
  | [] => none
  | c :: rest =>
    if isDigitOrComma c then
      let run := c :: rest.takeWhile isDigitOrComma
      let after := rest.dropWhile isDigitOrComma
      match after.dropWhile isPyWs with
      | m :: i :: _ =>
        if (m = 'm' ∨ m = 'M') ∧ (i = 'i' ∨ i = 'I') then some run
        else none
      | _ => none
    else none

/-- Leftmost match of `([\d,]+)\s*mi` (case-insensitive): exactly the
scan of `re.search`, trying each start position in turn.  (A start in
the middle of a digit run sees the same tail as the start of the run, so
the first successful position is always the start of a maximal run.) -/
def findMileageGroup : List Char → Option (List Char)
  | [] => none
  | c :: rest =>
    match matchMileAt (c :: rest) with
    | some g => some g
    | none => findMileageGroup rest

/-- Mileage extracted from a listing fragment's text:
`parse_mileage(mileage_match.group(1)) if mileage_match else None`. -/
def mileageFromText (t : String) : Option Nat :=
  match findMileageGroup t.toList with
  | none => none
  | some g => parse_mileage (String.mk g)

/-- The ASCII class `[A-Z]`. -/
def isUpperAZ (c : Char) : Bool :=
  'A' ≤ c && c ≤ 'Z'

/-- The ASCII class `[a-z]`. -/
def isLowerAZ (c : Char) : Bool :=
  'a' ≤ c && c ≤ 'z'

/-- The greedy star `(?:\s[A-Z][a-z]+)*` with an explicit recursion
bound: consume as many whitespace-then-capitalised-word groups as
possible, returning the consumed characters and the remainder.
Backtracking to fewer groups can never help the enclosing pattern,
because the character after fewer groups is the whitespace that started
the next group, never the comma the enclosing pattern requires. -/
def matchMoreWordsGo : Nat → List Char → List Char × List Char
  | Nat.succ fuel, s :: c :: rest =>
    if isPyWs s ∧ isUpperAZ c then
      let low := rest.takeWhile isLowerAZ
      if low.isEmpty then ([], s :: c :: rest)
      else
        let r := matchMoreWordsGo fuel (rest.dropWhile isLowerAZ)
        (s :: c :: (low ++ r.1), r.2)
    else ([], s :: c :: rest)
  | _, l => ([], l)

/-- The greedy star applied at a position, with the recursion bound set
to the input length.  Every iteration of the star consumes at least
three characters, so the bound is never exhausted. -/
def matchMoreWords (l : List Char) : List Char × List Char :=
  matchMoreWordsGo l.length l

/-- Match of `[A-Z][a-z]+(?:\s[A-Z][a-z]+)*,\s*[A-Z]{2}` anchored at the
head of the list, returning the matched characters. -/
def locMatchAt : List Char → Option (List Char)
  | [] => none
  | c :: rest =>
    if isUpperAZ c then
      let low := rest.takeWhile isLowerAZ
      if low.isEmpty then none
      else
        let r := matchMoreWords (rest.dropWhile isLowerAZ)
        match r.2 with
        | ',' :: rest4 =>
          let wsp := rest4.takeWhile isPyWs
          match rest4.dropWhile isPyWs with
          | u1 :: u2 :: _ =>
            if isUpperAZ u1 ∧ isUpperAZ u2 then
              some (c :: low ++ r.1 ++ ',' :: wsp ++ [u1, u2])
            else none
          | _ => none
        | _ => none
    else none

/-- Leftmost match of the location pattern
`([A-Z][a-z]+(?:\s[A-Z][a-z]+)*,\s*[A-Z]{2})` used by the Cars.com and
CarGurus fragment parsers. -/
def findLocation : List Char → Option String
  | [] => none
  | c :: rest =>
    match locMatchAt (c :: rest) with
    | some g => some (String.mk g)
    | none => findLocation rest

/-- Does the character list contain `pat` as a contiguous segment? -/
def containsChars (pat : List Char) : List Char → Bool
  | [] => pat.isEmpty
  | c :: rest => pat.isPrefixOf (c :: rest) || containsChars pat rest

/-- Python substring test `needle in hay`. -/
def strContains (hay needle : String) : Bool :=
  containsChars needle.toList hay.toList

/-- Python `str.lower()` on the ASCII range, stated over the character
list. -/
def toLowerStr (s : String) : String :=
  String.mk (s.data.map Char.toLower)

/-- Python `str.startswith`, stated over the character list. -/
def strStartsWith (s pat : String) : Bool :=
  pat.data.isPrefixOf s.data

/-- Python `str.split()` with no argument: split on whitespace runs and
drop empty pieces.  `acc` holds the current word reversed. -/
def pyWordsGo : List Char → List Char → List String
  | [], acc => if acc.isEmpty then [] else [String.mk acc.reverse]
  | c :: rest, acc =>
    if isPyWs c then
      if acc.isEmpty then pyWordsGo rest []
      else String.mk acc.reverse :: pyWordsGo rest []
    else pyWordsGo rest (c :: acc)

/-- Python `str.split()` with no argument. -/
def pyWords (s : String) : List String :=
  pyWordsGo s.data []

/-- Python truthiness of an optional string: `None` and the empty string
are falsy. -/
def pyTruthy (o : Option String) : Bool :=
  match o with
  | none => false
  | some s => s != ""

/-- The `ListingData` record of `scraper/base.py`. -/
structure ListingData where
  external_id : String
  price : Int
  year : Option Nat := none
  mileage : Option Nat := none
  location : Option String := none
  url : Option String := none
deriving DecidableEq

namespace CarsCom

/-- Leftmost match of `/vehicledetail/([^/]+)/`: the first occurrence of
the literal followed by a nonempty run of non-slash characters and a
closing slash. -/
def extractVehicleId : List Char → Option String
  | [] => none
  | c :: rest =>
    if "/vehicledetail/".toList.isPrefixOf (c :: rest) then
      let after := (c :: rest).drop 15
      let run := after.takeWhile (fun d => d != '/')
      if run.isEmpty || (after.dropWhile (fun d => d != '/')).isEmpty then
        extractVehicleId rest
      else some (String.mk run)
    else extractVehicleId rest

/-- `CarsComScraper._parse_listing_text`: price gate, year, make check,
mileage, url, location, in source order. -/
def parse_listing_text (text external_id href make : String) : Option ListingData :=
  let price := priceFromText text
  if price = 0 ∨ price > 500000 then none
  else
    let year := parse_year text
    if ¬ strContains (toLowerStr text) (toLowerStr make) then none
    else
      let mileage := mileageFromText text
      let url := if ¬ strStartsWith href "http" then "https://www.cars.com" ++ href else href
      let location := findLocation text.toList
      some { external_id := external_id, price := price, year := year,
             mileage := mileage, location := location, url := some url }

/-- One candidate anchor element of the Cars.com results page: its href
attribute and the inner text of the card container found for it (`none`
stands for a missing attribute, a missing container, or a DOM failure,
each of which the per-link handler skips). -/
structure CcLink where
  href : Option String := none
  parentText : Option String := none
deriving DecidableEq

/-- Outcome of the per-link body of `CarsComScraper.scrape_listings`:
either the link is skipped (possibly after recording its id as seen) or
a listing is yielded. -/
inductive CcStep where
  | skip (newSeen : List String)
  | yieldLd (ld : ListingData) (newSeen : List String)

/-- The per-link body of `CarsComScraper.scrape_listings`: missing href,
unextractable id, duplicate id, missing or short card text, rejection by
the parser, and the `price > 5000` yield gate, in source order. -/
def linkStep (make : String) (seen : List String) (l : CcLink) : CcStep :=
  match l.href with
  | none => .skip seen
  | some href =>
    match extractVehicleId href.toList with
    | none => .skip seen
    | some eid =>
      if seen.contains eid then .skip seen
      else
        let seen' := eid :: seen
        match l.parentText with
        | none => .skip seen'
        | some text =>
          if text = "" ∨ text.length < 20 then .skip seen'
          else
            match parse_listing_text text eid href make with
            | none => .skip seen'
            | some ld => if ld.price > 5000 then .yieldLd ld seen' else .skip seen'

/-- The candidate loop of `CarsComScraper.scrape_listings` over the
sliced link list, threading the seen-id set and the yield counter and
breaking once 30 listings have been yielded.  Returns the yielded
listings together with the number of candidate links examined. -/
def scrapeAux (make : String) : List CcLink → List String → Nat → List ListingData × Nat
  | [], _, _ => ([], 0)
  | l :: rest, seen, count =>
    match linkStep make seen l with
    | .skip seen' =>
      let r := scrapeAux make rest seen' count
      (r.1, r.2 + 1)
    | .yieldLd ld seen' =>
      if count + 1 ≥ 30 then ([ld], 1)
      else
        let r := scrapeAux make rest seen' (count + 1)
        (ld :: r.1, r.2 + 1)

/-- `CarsComScraper.scrape_listings`: examine at most the first 60
candidate links (`links[:60]`). -/
def scrape_listings (make : String) (links : List CcLink) : List ListingData × Nat :=
  scrapeAux make (links.take 60) [] 0

end CarsCom

namespace CarGurus

/-- One candidate element of the CarGurus results page, as read by
`CarGurusScraper._parse_listing`: its inner text (`none` when the
`inner_text` call raises), its `data-listing-id` and `id` attributes,
whether it contains an `a[href*="/Cars/"]` child and that child's href,
and the element's own href attribute. -/
structure CgElem where
  innerText : Option String := none
  attrListingId : Option String := none
  attrId : Option String := none
  hasCarsLink : Bool := false
  carsLinkHref : Option String := none
  selfHref : Option String := none
deriving DecidableEq

/-- `CarGurusScraper._parse_listing`.  `hashFn` stands for Python's
process-seeded `hash`, used only for the synthesised fallback id.  The
`IndexError` raised by `model.lower().split()[0]` on a whitespace-only
model name propagates to the per-listing handler and skips the fragment,
which this embedding folds into the rejection result. -/
def parse_listing (hashFn : String → Int) (el : CgElem) (make model : String) :
    Option ListingData :=
  match el.innerText with
  | none => none
  | some text =>
    if text.length < 20 then none
    else
      let eid0 := el.attrListingId
      let eid1 := if pyTruthy eid0 then eid0 else el.attrId
      let external_id :=
        if pyTruthy eid1 then eid1.getD ""
        else "cg-" ++ toString ((hashFn text).natAbs % 100000)
      let price := priceFromText text
      if price = 0 ∨ price > 500000 then none
      else
        let year := parse_year text
        let textLower := toLowerStr text
        let gate : Bool :=
          match pyWords (toLowerStr model) with
          | [] => false
          | w :: _ => strContains textLower (toLowerStr make) && strContains textLower w
        if gate = false then none
        else
          let mileage := mileageFromText text
          let hrefV : Option String :=
            if el.hasCarsLink then el.carsLinkHref
            else if pyTruthy el.selfHref then el.selfHref
            else some ""
          let url : Option String :=
            match hrefV with
            | none => none
            | some h =>
              if h ≠ "" ∧ ¬ strStartsWith h "http" then some ("https://www.cargurus.com" ++ h)
              else some h
          let location := findLocation text.toList
          some { external_id := external_id, price := price, year := year,
                 mileage := mileage, location := location, url := url }

/-- The candidate loop of `CarGurusScraper.scrape_listings`: parse each
element, yield it when it parses and its price exceeds 5000 (the count
is only reported, never used for control).  Returns the yielded listings
and the number of candidate elements examined. -/
def scrapeAux (hashFn : String → Int) (make model : String) :
    List CgElem → Nat → List ListingData × Nat
  | [], _ => ([], 0)
  | el :: rest, count =>
    match parse_listing hashFn el make model with
    | some ld =>
      if ld.price > 5000 then
        let r := scrapeAux hashFn make model rest (count + 1)
        (ld :: r.1, r.2 + 1)
      else
        let r := scrapeAux hashFn make model rest count
        (r.1, r.2 + 1)
    | none =>
      let r := scrapeAux hashFn make model rest count
      (r.1, r.2 + 1)

/-- `CarGurusScraper.scrape_listings`: examine at most the first 30
candidate elements (`listings[:30]`). -/
def scrape_listings (hashFn : String → Int) (make model : String) (els : List CgElem) :
    List ListingData × Nat :=
  scrapeAux hashFn make model (els.take 30) 0

end CarGurus

namespace Autotrader

/-- One candidate element of the Autotrader results page, as read by
`AutotraderScraper._parse_listing`: attributes and the inner texts of the
price, title, mileage and location child elements (`none` when the child
selector finds nothing), and the detail link child with its href. -/
structure AtElem where
  attrListingId : Option String := none
  attrId : Option String := none
  priceText : Option String := none
  titleText : Option String := none
  mileageText : Option String := none
  locationText : Option String := none
  saleLinkHref : Option (Option String) := none
deriving DecidableEq

/-- Leftmost match of `/(\d+)(?:\?|$)`: a slash followed by a nonempty
digit run that reaches a question mark or the end of the string. -/
def atUrlId : List Char → Option String
  | [] => none
  | c :: rest =>
    if c = '/' then
      let run := rest.takeWhile Char.isDigit
      let after := rest.dropWhile Char.isDigit
      if ¬ run.isEmpty ∧ (after.isEmpty ∨ after.headD ' ' = '?') then some (String.mk run)
      else atUrlId rest
    else atUrlId rest

/-- `AutotraderScraper._parse_listing`: attribute id chain, price with
only the `price == 0` rejection (there is no upper price bound on this
path), year from the title, mileage, location, url, and the two
fallback id syntheses. -/
def parse_listing (hashFn : String → Int) (el : AtElem) : Option ListingData :=
  let eid0 := el.attrListingId
  let eid1 := if pyTruthy eid0 then eid0 else el.attrId
  let price := parse_price (el.priceText.getD "")
  if price = 0 then none
  else
    let titleText := el.titleText.getD ""
    let year := parse_year titleText
    let mileage := parse_mileage (el.mileageText.getD "")
    let location := el.locationText
    let hrefV : Option String :=
      match el.saleLinkHref with
      | some h => h
      | none => some ""
    let url : Option String :=
      match hrefV with
      | none => none
      | some h =>
        if h ≠ "" ∧ ¬ strStartsWith h "http" then some ("https://www.autotrader.com" ++ h)
        else some h
    let eid2 :=
      if ¬ pyTruthy eid1 ∧ pyTruthy url then
        match atUrlId (url.getD "").toList with
        | some d => some d
        | none => eid1
      else eid1
    let external_id :=
      if ¬ pyTruthy eid2 then
        "at-" ++ toString (hashFn (titleText ++ toString price) % 100000)
      else eid2.getD ""
    some { external_id := external_id, price := price, year := year,
           mileage := mileage, location := location, url := url }

/-- The candidate loop of `AutotraderScraper.scrape_listings`: parse each
element and yield it when its price exceeds 5000.  Returns the yielded
listings and the number of candidate elements examined. -/
def scrapeAux (hashFn : String → Int) : List AtElem → List ListingData × Nat
  | [] => ([], 0)
  | el :: rest =>
    let r := scrapeAux hashFn rest
    match parse_listing hashFn el with
    | some ld => if ld.price > 5000 then (ld :: r.1, r.2 + 1) else (r.1, r.2 + 1)
    | none => (r.1, r.2 + 1)

/-- `AutotraderScraper.scrape_listings`: examine at most the first 30
candidate elements (`listings[:30]`). -/
def scrape_listings (hashFn : String → Int) (els : List AtElem) : List ListingData × Nat :=
  scrapeAux hashFn (els.take 30)

end Autotrader

/-- One row of the `listings` table.  The table's `UNIQUE(source,
external_id)` constraint is reflected by `save_listing` below. -/
structure ListingRow where
  model_id : Nat
  source : String
  external_id : String
  year : Option Nat
  price : Int
  mileage : Option Nat
  location : Option String
  url : Option String
  scraped_at : Nat
deriving DecidableEq

/-- The natural key test for the `listings` table: does row `r` carry the
given `(source, external_id)` pair? -/
def sameKey (source external_id : String) (r : ListingRow) : Bool :=
  r.source == source && r.external_id == external_id

/-- The row written by one `save_listing` call. -/
def listingRowOf (model_id : Nat) (source : String) (scraped_at : Nat)
    (ld : ListingData) : ListingRow :=
  { model_id := model_id, source := source, external_id := ld.external_id,
    year := ld.year, price := ld.price, mileage := ld.mileage,
    location := ld.location, url := ld.url, scraped_at := scraped_at }

/-- `database.save_listing`: `INSERT OR REPLACE` keyed by
`UNIQUE(source, external_id)` — any existing row with the same natural
key is deleted and the fresh row is inserted. -/
def save_listing (db : List ListingRow) (model_id : Nat) (source external_id : String)
    (year : Option Nat) (price : Int) (mileage : Option Nat) (location : Option String)
    (url : Option String) (scraped_at : Nat) : List ListingRow :=
  db.filter (fun r => ! sameKey source external_id r) ++
    [{ model_id := model_id, source := source, external_id := external_id,
       year := year, price := price, mileage := mileage, location := location,
       url := url, scraped_at := scraped_at }]

/-- One row of the `price_history` table.  Averages are modelled as exact
rationals, reflecting that SQLite's `AVG` is a deterministic function of
the aggregated rows. -/
structure PriceHistoryRow where
  model_id : Nat
  date : String
  avg_price : Rat
  min_price : Int
  max_price : Int
  listing_count : Nat
  avg_mileage : Option Rat
deriving DecidableEq

/-- SQLite `MIN` over a list of integers (0 on the empty list, which the
aggregation never consults because of the `GROUP BY`). -/
def listMinI : List Int → Int
  | [] => 0
  | x :: xs => xs.foldl min x

/-- SQLite `MAX` over a list of integers. -/
def listMaxI : List Int → Int
  | [] => 0
  | x :: xs => xs.foldl max x

/-- The rows aggregated by `update_price_history`: the stored listings of
the model with `price > 0`. -/
def qualListings (db : List ListingRow) (model_id : Nat) : List ListingRow :=
  db.filter (fun r => r.model_id == model_id && decide (0 < r.price))

/-- The `(model_id, date)` key test for the `price_history` table. -/
def histKey (model_id : Nat) (today : String) (h : PriceHistoryRow) : Bool :=
  h.model_id == model_id && h.date == today

/-- The snapshot row computed by the aggregation `SELECT` of
`update_price_history`: `AVG`, `MIN`, `MAX`, `COUNT(*)` over the prices
of the qualifying listings, and `AVG(mileage)` over their non-null
mileages (null when every mileage is null). -/
def snapshotRow (db : List ListingRow) (model_id : Nat) (today : String) :
    PriceHistoryRow :=
  let q := qualListings db model_id
  let prices : List Int := q.map (fun r => r.price)
  let miles : List Nat := q.filterMap (fun r => r.mileage)
  { model_id := model_id, date := today,
    avg_price := (prices.sum : Rat) / (prices.length : Rat),
    min_price := listMinI prices,
    max_price := listMaxI prices,
    listing_count := q.length,
    avg_mileage :=
      if miles.isEmpty then none
      else some ((miles.sum : Rat) / (miles.length : Rat)) }

/-- `database.update_price_history`: `INSERT OR REPLACE ... SELECT ...
GROUP BY model_id`.  When the model has no stored listing with a
positive price the `SELECT` produces no row and the table is untouched;
otherwise the snapshot keyed `(model_id, today)` replaces any previous
row with that key. -/
def update_price_history (db : List ListingRow) (hist : List PriceHistoryRow)
    (model_id : Nat) (today : String) : List PriceHistoryRow :=
  if (qualListings db model_id).isEmpty then hist
  else hist.filter (fun h => ! histKey model_id today h) ++ [snapshotRow db model_id today]

/-- The process-wide `scrape_status` dictionary of `main.py`. -/
structure ScrapeStatus where
  is_running : Bool
  current_model : Option String
  progress : Nat
  total : Nat
  errors : List String
deriving DecidableEq

/-- One tracked model, as returned by `get_all_models`. -/
structure ModelInfo where
  id : Nat
  make : String
  model : String
deriving DecidableEq

/-- Observable outcome of one adapter session for one `(model, source)`
pair: the listings the generator yielded (each of which `run_scrape`
saved before pulling the next) and, when the session raised anywhere —
browser setup, mid-stream, a save, or teardown — the exception text. -/
structure Attempt where
  yielded : List ListingData
  err : Option String
deriving DecidableEq

/-- The environment a run executes against: the adapter session outcomes,
which `update_price_history` calls raise (escaping the loop), today's
date, and the row timestamp. -/
structure RunEnv where
  outcome : ModelInfo → String → Attempt
  aggFail : Nat → Bool
  today : String
  now : Nat

/-- The error string recorded by `run_scrape` for a failed adapter
session: `f"Error scraping {make} {model_name} from {source_name}:
{str(e)}"`. -/
def scrapeErrorMsg (make model source err : String) : String :=
  "Error scraping " ++ make ++ " " ++ model ++ " from " ++ source ++ ": " ++ err

/-- Save every listing an adapter session yielded, in order. -/
def saveYielded (db : List ListingRow) (model_id : Nat) (source : String) (now : Nat)
    (ys : List ListingData) : List ListingRow :=
  ys.foldl
    (fun d ld =>
      save_listing d model_id source ld.external_id ld.year ld.price ld.mileage
        ld.location ld.url now)
    db

/-- The inner source loop of `run_scrape` for one model: save what the
session yielded, record one error string when the session raised, and
increment progress by one after every attempt, then move to the next
registered source. -/
def processScrapers (env : RunEnv) (m : ModelInfo) :
    List String → ScrapeStatus → List ListingRow → ScrapeStatus × List ListingRow
  | [], st, db => (st, db)
  | src :: rest, st, db =>
    let att := env.outcome m src
    let db2 := saveYielded db m.id src env.now att.yielded
    let st2 :=
      match att.err with
      | some e =>
        { st with errors := st.errors ++ [scrapeErrorMsg m.make m.model src e] }
      | none => st
    let st3 := { st2 with progress := st2.progress + 1 }
    processScrapers env m rest st3 db2

/-- The model loop of `run_scrape`: set the current-model label, run all
registered sources, then recompute the model's price history — whose
failure is the uncaught exception path escaping the loop, carrying the
state reached so far into the `finally` block. -/
def processModels (env : RunEnv) (scrapers : List String) :
    List ModelInfo → ScrapeStatus → List ListingRow → List PriceHistoryRow →
    Except (ScrapeStatus × List ListingRow × List PriceHistoryRow)
      (ScrapeStatus × List ListingRow × List PriceHistoryRow)
  | [], st, db, hist => .ok (st, db, hist)
  | m :: rest, st, db, hist =>
    let st1 := { st with current_model := some (m.make ++ " " ++ m.model) }
    let p := processScrapers env m scrapers st1 db
    if env.aggFail m.id then .error (p.1, p.2, hist)
    else processModels env scrapers rest p.1 p.2 (update_price_history p.2 hist m.id env.today)

/-- The `finally` block of `run_scrape`: stop running, clear the label,
and force progress to the current total. -/
def finalizeStatus (st : ScrapeStatus) : ScrapeStatus :=
  { st with is_running := false, current_model := none, progress := st.total }

/-- `main.run_scrape`: the re-entrancy guard, run setup (clear errors,
select target models, set total and progress), the model/source loop,
and the unconditional finalisation applied to whichever state the loop
reached, on the normal path and on the exception path alike.  The
registered source list is `[("cars.com", CarsComScraper)]`. -/
def run_scrape (env : RunEnv) (model_ids : Option (List Nat)) (allModels : List ModelInfo)
    (st : ScrapeStatus) (db : List ListingRow) (hist : List PriceHistoryRow) :
    ScrapeStatus × List ListingRow × List PriceHistoryRow :=
  if st.is_running then (st, db, hist)
  else
    let st1 := { st with is_running := true, errors := [] }
    let models :=
      match model_ids with
      | some ids => allModels.filter (fun m => ids.contains m.id)
      | none => allModels
    let scrapers : List String := ["cars.com"]
    let st2 := { st1 with total := models.length * scrapers.length, progress := 0 }
    match processModels env scrapers models st2 db hist with
    | .ok (s, d, h) => (finalizeStatus s, d, h)
    | .error (s, d, h) => (finalizeStatus s, d, h)

/-- Result of the `POST /api/scrape` endpoint: HTTP 409 Conflict, or 202
style acceptance carrying the message and the status snapshot returned
to the caller. -/
inductive TriggerResponse where
  | conflict (detail : String)
  | accepted (message : String) (status : ScrapeStatus)
deriving DecidableEq

/-- `main.trigger_scrape`: reject with Conflict while a run is active —
before touching any state — otherwise schedule `run_scrape` as a
background task with the optional single-model filter (`[model_id] if
model_id else None`, so a falsy id means all models) and return the
current status snapshot.  The third component is the scheduled task's
argument, `none` when no task was scheduled. -/
def trigger_scrape (st : ScrapeStatus) (model_id : Option Nat) :
    TriggerResponse × ScrapeStatus × Option (Option (List Nat)) :=
  if st.is_running then (.conflict "Scrape already in progress", st, none)
  else
    let mids : Option (List Nat) :=
      match model_id with
      | some i => if i ≠ 0 then some [i] else none
      | none => none
    (.accepted "Scrape started" st, st, some mids)

/-- Number of `price_history` rows carrying a given `(model_id, date)`
key; the table's `UNIQUE(model_id, date)` constraint keeps it at most
one. -/
def keyCount (hist : List PriceHistoryRow) (model_id : Nat) (today : String) : Nat :=
  (hist.filter (histKey model_id today)).length

/-- Modelled from the spec (section 4.2 validation gate): reject a
fragment only "if neither the make token nor the first word of the model
name appears (case-insensitive) in the fragment's text" — so the
fragment passes the gate when at least one of the two tokens appears.
Stated here for comparison with the adapters' actual gates. -/
def specGatePasses (make model text : String) : Bool :=
  strContains (toLowerStr text) (toLowerStr make) ||
    strContains (toLowerStr text) (toLowerStr ((pyWords model).headD ""))

/-- A run environment for concrete instantiations in which every adapter
session yields five distinct listings and then raises. -/
def c6Env : RunEnv :=
  { outcome := fun _ _ =>
      { yielded :=
          [ { external_id := "e1", price := 20000 },
            { external_id := "e2", price := 21000 },
            { external_id := "e3", price := 22000 },
            { external_id := "e4", price := 23000 },
            { external_id := "e5", price := 24000 } ],
        err := some "Timeout 30000ms exceeded" },
    aggFail := fun _ => false, today := "2026-10-12", now := 9 }

/-- A tracked model used for concrete instantiations. -/
def c6Model : ModelInfo :=
  { id := 3, make := "Tesla", model := "Model 3" }

/-- A benign run environment for concrete instantiations: every adapter
session yields nothing and succeeds, and no aggregation call raises. -/
def quietEnv : RunEnv :=
  { outcome := fun _ _ => { yielded := [], err := none },
    aggFail := fun _ => false, today := "2026-10-12", now := 17 }

/-- The idle start status. -/
def idleStatus : ScrapeStatus :=
  { is_running := false, current_model := none, progress := 0, total := 0, errors := [] }

/-- A listings table in which model 1 has no positive-priced listing:
one price-0 row for model 1, one positive row for another model. -/
def c10Db : List ListingRow :=
  [ { model_id := 1, source := "cars.com", external_id := "a", year := none, price := 0,
      mileage := none, location := none, url := none, scraped_at := 3 },
    { model_id := 2, source := "cars.com", external_id := "b", year := some 2022,
      price := 30000, mileage := some 12000, location := none, url := none,
      scraped_at := 3 } ]

/-- A price-history table holding an older snapshot and a snapshot for
the very `(model, date)` key a recomputation targets. -/
def c10Hist : List PriceHistoryRow :=
  [ { model_id := 1, date := "2026-10-11", avg_price := 21000, min_price := 20000,
      max_price := 22000, listing_count := 2, avg_mileage := some 15000 },
    { model_id := 1, date := "2026-10-12", avg_price := 20000, min_price := 20000,
      max_price := 20000, listing_count := 1, avg_mileage := none } ]

/-- A listings table whose model-1 qualifying prices are exactly
20000, 30000, 25000. -/
def c5Db : List ListingRow :=
  [ { model_id := 1, source := "cars.com", external_id := "x1", year := some 2021,
      price := 20000, mileage := some 30000, location := none, url := none,
      scraped_at := 5 },
    { model_id := 1, source := "cars.com", external_id := "x2", year := none,
      price := 30000, mileage := none, location := none, url := none, scraped_at := 5 },
    { model_id := 1, source := "cars.com", external_id := "x3", year := none,
      price := 25000, mileage := some 10000, location := none, url := none,
      scraped_at := 5 } ]

/-- A Cars.com candidate link whose card text parses into a valid
listing. -/
def c2Link : CarsCom.CcLink :=
  { href := some "/vehicledetail/ABC123/x",
    parentText := some "2021 Tesla Model 3 $20,000 45,231 mi Houston, TX great shape" }

/-- The listing the Cars.com pipeline yields for `c2Link`. -/
def c2Yield : ListingData :=
  (CarsCom.scrape_listings "Tesla" [c2Link]).1.headD { external_id := "", price := 0 }

/-- A fragment text containing the make token but not the first word of
the model name. -/
def c9Text : String :=
  "Great deal on a tesla, only $20,000 - Houston, TX"

/-- A fragment text containing both the make token and the first word of
the model name. -/
def c9GoodText : String :=
  "2021 Tesla Model 3 for sale $25,000 only 30,111 mi - Austin, TX"

/-! ### Helper lemmas -/

theorem filter_of_filter_not (p : α → Bool) (l : List α) :
    (l.filter fun a => ! p a).filter p = [] := by
  induction l with
  | nil => rfl
  | cons a t ih =>
    by_cases h : p a <;> simp [List.filter_cons, h, ih]

theorem filter_filter_self (p : α → Bool) (l : List α) :
    (l.filter p).filter p = l.filter p := by
  induction l with
  | nil => rfl
  | cons a t ih =>
    by_cases h : p a <;> simp [List.filter_cons, h, ih]

/-! ### C1: upsert by natural key -/

/-- C1.  For every pair of `save_listing` calls with identical
`(source, external_id)` values, exactly one listings row exists
afterwards for that natural key, and its fields equal those of the
second call. -/
theorem C1_upsert_second_wins (db : List ListingRow) (m1 m2 : Nat) (src eid : String)
    (y1 y2 : Option Nat) (p1 p2 : Int) (mi1 mi2 : Option Nat)
    (l1 l2 u1 u2 : Option String) (t1 t2 : Nat) :
    (save_listing (save_listing db m1 src eid y1 p1 mi1 l1 u1 t1)
        m2 src eid y2 p2 mi2 l2 u2 t2).filter (sameKey src eid) =
      [{ model_id := m2, source := src, external_id := eid, year := y2, price := p2,
         mileage := mi2, location := l2, url := u2, scraped_at := t2 }] := by
  conv_lhs => rw [save_listing]
  rw [List.filter_append, filter_of_filter_not]
  simp [sameKey]

/-! ### C3: trigger while running -/

/-- C3.  A trigger made while a run is active returns Conflict and leaves
the status — in particular the progress counter and the error list —
unchanged; no background task is scheduled. -/
theorem C3_trigger_conflict (st : ScrapeStatus) (mid : Option Nat)
    (h : st.is_running = true) :
    trigger_scrape st mid = (.conflict "Scrape already in progress", st, none) ∧
    (trigger_scrape st mid).2.1.progress = st.progress ∧
    (trigger_scrape st mid).2.1.errors = st.errors := by
  simp [trigger_scrape, h]

theorem C3_trigger_conflict_witness :
    ({ is_running := true, current_model := some "Tesla Model 3", progress := 2,
       total := 20, errors := ["boom"] } : ScrapeStatus).is_running = true ∧
    trigger_scrape
        { is_running := true, current_model := some "Tesla Model 3", progress := 2,
          total := 20, errors := ["boom"] } (some 4) =
      (.conflict "Scrape already in progress",
        { is_running := true, current_model := some "Tesla Model 3", progress := 2,
          total := 20, errors := ["boom"] }, none) :=
  ⟨rfl, (C3_trigger_conflict _ (some 4) rfl).1⟩

/-! ### C7: unconditional finalisation -/

/-- C7.  On every exit path of a run — normal completion or an exception
escaping the model/adapter loop — the status is finalised: `is_running`
becomes false, the current-model label is cleared, and progress is
forced equal to total. -/
theorem C7_finalization (env : RunEnv) (mids : Option (List Nat))
    (allModels : List ModelInfo) (st : ScrapeStatus) (db : List ListingRow)
    (hist : List PriceHistoryRow) (h : st.is_running = false) :
    (run_scrape env mids allModels st db hist).1.is_running = false ∧
    (run_scrape env mids allModels st db hist).1.current_model = none ∧
    (run_scrape env mids allModels st db hist).1.progress =
      (run_scrape env mids allModels st db hist).1.total := by
  rw [run_scrape.eq_def]
  simp only [h]
  cases hp : processModels env ["cars.com"]
      (match mids with
        | some ids => allModels.filter (fun m => ids.contains m.id)
        | none => allModels) _ db hist with
  | ok x => obtain ⟨s, d, hh⟩ := x; simp [finalizeStatus]
  | error x => obtain ⟨s, d, hh⟩ := x; simp [finalizeStatus]

theorem C7_finalization_witness :
    idleStatus.is_running = false ∧
    (run_scrape quietEnv none [⟨1, "Tesla", "Model 3"⟩] idleStatus [] []).1.is_running
        = false ∧
    (run_scrape quietEnv none [⟨1, "Tesla", "Model 3"⟩] idleStatus [] []).1.current_model
        = none ∧
    (run_scrape quietEnv none [⟨1, "Tesla", "Model 3"⟩] idleStatus [] []).1.progress =
      (run_scrape quietEnv none [⟨1, "Tesla", "Model 3"⟩] idleStatus [] []).1.total :=
  ⟨rfl, C7_finalization quietEnv none _ idleStatus [] [] rfl⟩

/-! ### C10: no qualifying listings is a no-op -/

/-- C10.  When a model has no stored listing with a positive price,
recomputing its snapshot writes nothing: the price-history table —
including any previously stored snapshot for that same key — is exactly
unchanged. -/
theorem C10_no_qualifying_noop (db : List ListingRow) (hist : List PriceHistoryRow)
    (mid : Nat) (d : String) (h : ∀ r ∈ db, r.model_id = mid → r.price ≤ 0) :
    update_price_history db hist mid d = hist := by
  have hq : (qualListings db mid).isEmpty = true := by
    rw [qualListings, List.isEmpty_iff, List.filter_eq_nil_iff]
    intro r hr
    simp only [Bool.and_eq_true, beq_iff_eq, decide_eq_true_eq, not_and]
    intro hm hp
    exact absurd hp (not_lt.mpr (h r hr hm))
  simp [update_price_history, hq]

theorem C10_no_qualifying_noop_witness :
    (∀ r ∈ c10Db, r.model_id = 1 → r.price ≤ 0) ∧
    update_price_history c10Db c10Hist 1 "2026-10-12" = c10Hist :=
  ⟨by decide, C10_no_qualifying_noop c10Db c10Hist 1 "2026-10-12" (by decide)⟩

/-! ### C4: idempotent snapshot recomputation -/

theorem histKey_snapshotRow (db : List ListingRow) (mid : Nat) (d : String) :
    histKey mid d (snapshotRow db mid d) = true := by
  simp [histKey, snapshotRow]

/-- C4.  Recomputing a model's snapshot twice against unchanged listings
gives exactly the same price-history table as recomputing it once — in
particular identical avg/min/max price, count and avg mileage — and at
most one row carries the `(model, date)` key afterwards. -/
theorem C4_recompute_idempotent (db : List ListingRow) (hist : List PriceHistoryRow)
    (mid : Nat) (d : String) (h : keyCount hist mid d ≤ 1) :
    update_price_history db (update_price_history db hist mid d) mid d =
      update_price_history db hist mid d ∧
    keyCount (update_price_history db hist mid d) mid d ≤ 1 := by
  by_cases hq : (qualListings db mid).isEmpty = true
  · constructor
    · simp [update_price_history, hq]
    · simpa [update_price_history, hq] using h
  · constructor
    · simp only [update_price_history, if_neg hq, List.filter_append, filter_filter_self]
      simp [List.filter_cons, histKey_snapshotRow]
    · simp only [keyCount, update_price_history, if_neg hq, List.filter_append,
        filter_of_filter_not]
      simp [List.filter_cons, histKey_snapshotRow]

/-! ### C6: one failed adapter session -/

theorem mem_saveYielded_of_mem (db : List ListingRow) (mid : Nat) (src : String)
    (now : Nat) (ys : List ListingData) (r : ListingRow) (hr : r ∈ db)
    (hk : ∀ l ∈ ys, r.external_id ≠ l.external_id ∨ r.source ≠ src) :
    r ∈ saveYielded db mid src now ys := by
  induction ys generalizing db with
  | nil => exact hr
  | cons y t ih =>
    have hkey : sameKey src y.external_id r = false := by
      rcases hk y (List.mem_cons_self _ _) with h | h
      · simp [sameKey, h]
      · simp [sameKey, h]
    have hr2 : r ∈ save_listing db mid src y.external_id y.year y.price y.mileage
        y.location y.url now := by
      rw [save_listing]
      apply List.mem_append_left
      rw [List.mem_filter]
      exact ⟨hr, by simp [hkey]⟩
    exact ih _ hr2 (fun l hl => hk l (List.mem_cons_of_mem _ hl))

theorem mem_saveYielded_self (db : List ListingRow) (mid : Nat) (src : String)
    (now : Nat) (ys : List ListingData)
    (hnd : (ys.map (fun l => l.external_id)).Nodup) :
    ∀ ld ∈ ys, listingRowOf mid src now ld ∈ saveYielded db mid src now ys := by
  induction ys generalizing db with
  | nil => intro ld h; exact absurd h (List.not_mem_nil ld)
  | cons y t ih =>
    rw [List.map_cons, List.nodup_cons] at hnd
    obtain ⟨hy, hnd'⟩ := hnd
    intro ld hld
    rcases List.mem_cons.mp hld with h1 | h1
    · subst h1
      have hself : listingRowOf mid src now ld ∈
          save_listing db mid src ld.external_id ld.year ld.price ld.mileage
            ld.location ld.url now := by
        rw [save_listing]
        apply List.mem_append_right
        simp [listingRowOf]
      show listingRowOf mid src now ld ∈
        saveYielded
          (save_listing db mid src ld.external_id ld.year ld.price ld.mileage
            ld.location ld.url now) mid src now t
      refine mem_saveYielded_of_mem _ _ _ _ _ _ hself (fun l hl => Or.inl ?_)
      intro he
      apply hy
      have hee : ld.external_id = l.external_id := he
      rw [hee]
      exact List.mem_map_of_mem _ hl
    · exact ih _ hnd' ld h1

/-- C6.  When an adapter session raises after yielding five valid
fragments, the inner loop saves exactly those five rows (each of which
is then present in the listings table), appends exactly one error string
of the recorded format, increments progress by exactly one, and
continues with the remaining adapters of the registered list. -/
theorem C6_adapter_error_step (env : RunEnv) (m : ModelInfo) (src : String)
    (rest : List String) (st : ScrapeStatus) (db : List ListingRow) (e : String)
    (h1 : (env.outcome m src).err = some e)
    (_h2 : (env.outcome m src).yielded.length = 5)
    (h3 : ((env.outcome m src).yielded.map (fun l => l.external_id)).Nodup) :
    processScrapers env m (src :: rest) st db =
      processScrapers env m rest
        { st with errors := st.errors ++ [scrapeErrorMsg m.make m.model src e],
                  progress := st.progress + 1 }
        (saveYielded db m.id src env.now (env.outcome m src).yielded) ∧
    ∀ ld ∈ (env.outcome m src).yielded,
      listingRowOf m.id src env.now ld ∈
        saveYielded db m.id src env.now (env.outcome m src).yielded := by
  constructor
  · simp only [processScrapers, h1]
  · exact mem_saveYielded_self db m.id src env.now _ h3

theorem C6_adapter_error_step_witness :
    (c6Env.outcome c6Model "cars.com").err = some "Timeout 30000ms exceeded" ∧
    (c6Env.outcome c6Model "cars.com").yielded.length = 5 ∧
    ((c6Env.outcome c6Model "cars.com").yielded.map (fun l => l.external_id)).Nodup ∧
    (processScrapers c6Env c6Model ["cars.com"] idleStatus [] =
      processScrapers c6Env c6Model []
        { idleStatus with
            errors := idleStatus.errors ++
              [scrapeErrorMsg c6Model.make c6Model.model "cars.com"
                "Timeout 30000ms exceeded"],
            progress := idleStatus.progress + 1 }
        (saveYielded [] c6Model.id "cars.com" c6Env.now
          (c6Env.outcome c6Model "cars.com").yielded) ∧
    ∀ ld ∈ (c6Env.outcome c6Model "cars.com").yielded,
      listingRowOf c6Model.id "cars.com" c6Env.now ld ∈
        saveYielded [] c6Model.id "cars.com" c6Env.now
          (c6Env.outcome c6Model "cars.com").yielded) :=
  ⟨rfl, by decide, by decide,
    C6_adapter_error_step c6Env c6Model "cars.com" [] idleStatus [] _ rfl (by decide)
      (by decide)⟩

/-! ### Fold-based MIN and MAX -/

theorem foldl_min_le_init (xs : List Int) (x : Int) : xs.foldl min x ≤ x := by
  induction xs generalizing x with
  | nil => exact le_refl x
  | cons y ys ih =>
    rw [List.foldl_cons]
    exact le_trans (ih (min x y)) (min_le_left x y)

theorem foldl_min_mem (xs : List Int) (x : Int) : xs.foldl min x ∈ x :: xs := by
  induction xs generalizing x with
  | nil => simp
  | cons y ys ih =>
    rw [List.foldl_cons]
    rcases List.mem_cons.mp (ih (min x y)) with h1 | h1
    · rw [h1]
      rcases min_choice x y with h2 | h2
      · rw [h2]; exact List.mem_cons_self _ _
      · rw [h2]; exact List.mem_cons_of_mem _ (List.mem_cons_self _ _)
    · exact List.mem_cons_of_mem _ (List.mem_cons_of_mem _ h1)

theorem foldl_min_le (xs : List Int) (x z : Int) (hz : z ∈ x :: xs) :
    xs.foldl min x ≤ z := by
  induction xs generalizing x with
  | nil =>
    rw [List.mem_singleton] at hz
    rw [hz]
    exact le_refl x
  | cons y ys ih =>
    rw [List.foldl_cons]
    rcases List.mem_cons.mp hz with h1 | h1
    · rw [h1]
      exact le_trans (foldl_min_le_init ys (min x y)) (min_le_left x y)
    · rcases List.mem_cons.mp h1 with h2 | h2
      · rw [h2]
        exact le_trans (foldl_min_le_init ys (min x y)) (min_le_right x y)
      · exact ih (min x y) (List.mem_cons_of_mem _ h2)

theorem listMinI_mem (l : List Int) (h : l ≠ []) : listMinI l ∈ l := by
  cases l with
  | nil => exact absurd rfl h
  | cons x xs => exact foldl_min_mem xs x

theorem listMinI_le (l : List Int) (z : Int) (hz : z ∈ l) : listMinI l ≤ z := by
  cases l with
  | nil => exact absurd hz (List.not_mem_nil z)
  | cons x xs => exact foldl_min_le xs x z hz

theorem listMinI_perm (l l' : List Int) (h : l.Perm l') : listMinI l = listMinI l' := by
  cases l with
  | nil =>
    have h0 : l' = [] := h.symm.eq_nil
    rw [h0]
  | cons x xs =>
    have hne : l' ≠ [] := by
      intro e
      rw [e] at h
      exact absurd h.eq_nil (by simp)
    exact le_antisymm
      (listMinI_le _ _ (h.mem_iff.mpr (listMinI_mem l' hne)))
      (listMinI_le _ _ (h.mem_iff.mp (listMinI_mem (x :: xs) (by simp))))

theorem foldl_max_le_init (xs : List Int) (x : Int) : x ≤ xs.foldl max x := by
  induction xs generalizing x with
  | nil => exact le_refl x
  | cons y ys ih =>
    rw [List.foldl_cons]
    exact le_trans (le_max_left x y) (ih (max x y))

theorem foldl_max_mem (xs : List Int) (x : Int) : xs.foldl max x ∈ x :: xs := by
  induction xs generalizing x with
  | nil => simp
  | cons y ys ih =>
    rw [List.foldl_cons]
    rcases List.mem_cons.mp (ih (max x y)) with h1 | h1
    · rw [h1]
      rcases max_choice x y with h2 | h2
      · rw [h2]; exact List.mem_cons_self _ _
      · rw [h2]; exact List.mem_cons_of_mem _ (List.mem_cons_self _ _)
    · exact List.mem_cons_of_mem _ (List.mem_cons_of_mem _ h1)

theorem foldl_max_le (xs : List Int) (x z : Int) (hz : z ∈ x :: xs) :
    z ≤ xs.foldl max x := by
  induction xs generalizing x with
  | nil =>
    rw [List.mem_singleton] at hz
    rw [hz]
    exact le_refl x
  | cons y ys ih =>
    rw [List.foldl_cons]
    rcases List.mem_cons.mp hz with h1 | h1
    · rw [h1]
      exact le_trans (le_max_left x y) (foldl_max_le_init ys (max x y))
    · rcases List.mem_cons.mp h1 with h2 | h2
      · rw [h2]
        exact le_trans (le_max_right x y) (foldl_max_le_init ys (max x y))
      · exact ih (max x y) (List.mem_cons_of_mem _ h2)

theorem listMaxI_mem (l : List Int) (h : l ≠ []) : listMaxI l ∈ l := by
  cases l with
  | nil => exact absurd rfl h
  | cons x xs => exact foldl_max_mem xs x

theorem listMaxI_ge (l : List Int) (z : Int) (hz : z ∈ l) : z ≤ listMaxI l := by
  cases l with
  | nil => exact absurd hz (List.not_mem_nil z)
  | cons x xs => exact foldl_max_le xs x z hz

theorem listMaxI_perm (l l' : List Int) (h : l.Perm l') : listMaxI l = listMaxI l' := by
  cases l with
  | nil =>
    have h0 : l' = [] := h.symm.eq_nil
    rw [h0]
  | cons x xs =>
    have hne : l' ≠ [] := by
      intro e
      rw [e] at h
      exact absurd h.eq_nil (by simp)
    exact le_antisymm
      (listMaxI_ge _ _ (h.mem_iff.mp (listMaxI_mem (x :: xs) (by simp))))
      (listMaxI_ge _ _ (h.mem_iff.mpr (listMaxI_mem l' hne)))

/-! ### C5: the concrete aggregation example -/

/-- C5.  When a model's currently stored qualifying prices are exactly
the multiset 20000, 30000, 25000, recomputing its snapshot upserts a row
with avg 25000, min 20000, max 30000 and count 3. -/
theorem C5_snapshot_example (db : List ListingRow) (hist : List PriceHistoryRow)
    (mid : Nat) (d : String)
    (h : ((qualListings db mid).map (fun r => r.price)).Perm [20000, 30000, 25000]) :
    update_price_history db hist mid d =
      hist.filter (fun x => ! histKey mid d x) ++ [snapshotRow db mid d] ∧
    (snapshotRow db mid d).avg_price = 25000 ∧
    (snapshotRow db mid d).min_price = 20000 ∧
    (snapshotRow db mid d).max_price = 30000 ∧
    (snapshotRow db mid d).listing_count = 3 := by
  have hlen : (qualListings db mid).length = 3 := by
    have hl := h.length_eq
    simpa using hl
  have hne : ¬ (qualListings db mid).isEmpty = true := by
    rw [List.isEmpty_iff]
    intro e
    rw [e] at hlen
    simp at hlen
  refine ⟨?_, ?_, ?_, ?_, ?_⟩
  · simp only [update_price_history, if_neg hne]
  · have hs : ((qualListings db mid).map (fun r => r.price)).sum = 75000 := by
      rw [h.sum_eq]
      decide
    have hl2 : ((qualListings db mid).map (fun r => r.price)).length = 3 := by
      rw [List.length_map]
      exact hlen
    simp only [snapshotRow, hs, hl2]
    norm_num
  · simp only [snapshotRow]
    rw [listMinI_perm _ _ h]
    decide
  · simp only [snapshotRow]
    rw [listMaxI_perm _ _ h]
    decide
  · simp only [snapshotRow]
    exact hlen

theorem C5_snapshot_example_witness :
    ((qualListings c5Db 1).map (fun r => r.price)).Perm [20000, 30000, 25000] ∧
    ((snapshotRow c5Db 1 "2026-10-12").avg_price = 25000 ∧
      (snapshotRow c5Db 1 "2026-10-12").min_price = 20000 ∧
      (snapshotRow c5Db 1 "2026-10-12").max_price = 30000 ∧
      (snapshotRow c5Db 1 "2026-10-12").listing_count = 3) :=
  have hp : ((qualListings c5Db 1).map (fun r => r.price)).Perm [20000, 30000, 25000] :=
    (show ((qualListings c5Db 1).map (fun r => r.price)) = [20000, 30000, 25000]
      by decide) ▸ List.Perm.refl _
  ⟨hp, (C5_snapshot_example c5Db [] 1 "2026-10-12" hp).2⟩

theorem C4_recompute_idempotent_witness :
    keyCount c10Hist 1 "2026-10-12" ≤ 1 ∧
    (update_price_history c5Db (update_price_history c5Db c10Hist 1 "2026-10-12")
        1 "2026-10-12" =
      update_price_history c5Db c10Hist 1 "2026-10-12" ∧
    keyCount (update_price_history c5Db c10Hist 1 "2026-10-12") 1 "2026-10-12" ≤ 1) :=
  ⟨by decide, C4_recompute_idempotent c5Db c10Hist 1 "2026-10-12" (by decide)⟩

/-! ### C2: price bounds on the adapters' yield paths -/

theorem ccParse_price_le (t e h mk : String) (ld : ListingData)
    (hp : CarsCom.parse_listing_text t e h mk = some ld) : ld.price ≤ 500000 := by
  simp only [CarsCom.parse_listing_text] at hp
  split at hp
  · exact absurd hp (by simp)
  · rename_i h0
    split at hp
    · exact absurd hp (by simp)
    · have hld : ld.price = priceFromText t := by
        rw [← Option.some.inj hp]
      push_neg at h0
      rw [hld]
      exact h0.2

theorem cgParse_price_le (hashFn : String → Int) (el : CarGurus.CgElem)
    (make model : String) (ld : ListingData)
    (hp : CarGurus.parse_listing hashFn el make model = some ld) :
    ld.price ≤ 500000 := by
  simp only [CarGurus.parse_listing] at hp
  split at hp
  · exact absurd hp (by simp)
  · rename_i t ht
    split at hp
    · exact absurd hp (by simp)
    · split at hp
      · exact absurd hp (by simp)
      · rename_i h0
        split at hp
        · exact absurd hp (by simp)
        · have hld : ld.price = priceFromText t := by
            rw [← Option.some.inj hp]
          push_neg at h0
          rw [hld]
          exact h0.2

theorem ccScrapeAux_cons (mk : String) (l : CarsCom.CcLink) (rest : List CarsCom.CcLink)
    (seen : List String) (count : Nat) :
    CarsCom.scrapeAux mk (l :: rest) seen count =
      match CarsCom.linkStep mk seen l with
      | .skip seen' =>
        let r := CarsCom.scrapeAux mk rest seen' count
        (r.1, r.2 + 1)
      | .yieldLd ld seen' =>
        if count + 1 ≥ 30 then ([ld], 1)
        else
          let r := CarsCom.scrapeAux mk rest seen' (count + 1)
          (ld :: r.1, r.2 + 1) := rfl

theorem cgScrapeAux_cons (hashFn : String → Int) (make model : String)
    (el : CarGurus.CgElem) (rest : List CarGurus.CgElem) (count : Nat) :
    CarGurus.scrapeAux hashFn make model (el :: rest) count =
      match CarGurus.parse_listing hashFn el make model with
      | some ld =>
        if ld.price > 5000 then
          let r := CarGurus.scrapeAux hashFn make model rest (count + 1)
          (ld :: r.1, r.2 + 1)
        else
          let r := CarGurus.scrapeAux hashFn make model rest count
          (r.1, r.2 + 1)
      | none =>
        let r := CarGurus.scrapeAux hashFn make model rest count
        (r.1, r.2 + 1) := rfl

theorem atScrapeAux_cons (hashFn : String → Int) (el : Autotrader.AtElem)
    (rest : List Autotrader.AtElem) :
    Autotrader.scrapeAux hashFn (el :: rest) =
      (let r := Autotrader.scrapeAux hashFn rest
      match Autotrader.parse_listing hashFn el with
      | some ld => if ld.price > 5000 then (ld :: r.1, r.2 + 1) else (r.1, r.2 + 1)
      | none => (r.1, r.2 + 1)) := rfl

theorem linkStep_yield_bounds (mk : String) (seen : List String) (l : CarsCom.CcLink)
    (ld : ListingData) (seen' : List String)
    (h : CarsCom.linkStep mk seen l = .yieldLd ld seen') :
    5000 < ld.price ∧ ld.price ≤ 500000 := by
  obtain ⟨href, ptext⟩ := l
  rcases href with _ | href
  · simp [CarsCom.linkStep] at h
  · rcases hx : CarsCom.extractVehicleId href.data with _ | eid
    · simp [CarsCom.linkStep, hx] at h
    · by_cases hs : eid ∈ seen
      · simp [CarsCom.linkStep, hx, hs] at h
      · rcases ptext with _ | text
        · simp [CarsCom.linkStep, hx, hs] at h
        · by_cases hlen : text = "" ∨ text.length < 20
          · simp [CarsCom.linkStep, hx, hs, hlen] at h
          · rcases hp : CarsCom.parse_listing_text text eid href mk with _ | ld0
            · simp [CarsCom.linkStep, hx, hs, hlen, hp] at h
            · by_cases hg : ld0.price > 5000
              · simp [CarsCom.linkStep, hx, hs, hlen, hp, hg] at h
                obtain ⟨h1, h2⟩ := h
                subst h1
                exact ⟨hg, ccParse_price_le _ _ _ _ _ hp⟩
              · simp [CarsCom.linkStep, hx, hs, hlen, hp, hg] at h

theorem ccAux_price_bounds (mk : String) :
    ∀ (links : List CarsCom.CcLink) (seen : List String) (count : Nat)
      (ld : ListingData),
      ld ∈ (CarsCom.scrapeAux mk links seen count).1 →
      5000 < ld.price ∧ ld.price ≤ 500000 := by
  intro links
  induction links with
  | nil =>
    intro seen count ld hld
    simp [CarsCom.scrapeAux] at hld
  | cons l rest ih =>
    intro seen count ld hld
    rcases hstep : CarsCom.linkStep mk seen l with seen' | ⟨ld', seen'⟩
    · simp only [ccScrapeAux_cons, hstep] at hld
      exact ih seen' count ld hld
    · simp only [ccScrapeAux_cons, hstep] at hld
      by_cases hcnt : count + 1 ≥ 30
      · rw [if_pos hcnt] at hld
        have : ld = ld' := by simpa using hld
        rw [this]
        exact linkStep_yield_bounds mk seen l ld' seen' hstep
      · rw [if_neg hcnt] at hld
        rcases List.mem_cons.mp hld with h1 | h1
        · rw [h1]
          exact linkStep_yield_bounds mk seen l ld' seen' hstep
        · exact ih seen' (count + 1) ld h1

theorem cgAux_price_bounds (hashFn : String → Int) (make model : String) :
    ∀ (els : List CarGurus.CgElem) (count : Nat) (ld : ListingData),
      ld ∈ (CarGurus.scrapeAux hashFn make model els count).1 →
      5000 < ld.price ∧ ld.price ≤ 500000 := by
  intro els
  induction els with
  | nil =>
    intro count ld hld
    simp [CarGurus.scrapeAux] at hld
  | cons el rest ih =>
    intro count ld hld
    rcases hp : CarGurus.parse_listing hashFn el make model with _ | ld'
    · simp only [cgScrapeAux_cons, hp] at hld
      exact ih count ld hld
    · simp only [cgScrapeAux_cons, hp] at hld
      by_cases hg : ld'.price > 5000
      · rw [if_pos hg] at hld
        rcases List.mem_cons.mp hld with h1 | h1
        · rw [h1]
          exact ⟨hg, cgParse_price_le _ _ _ _ _ hp⟩
        · exact ih (count + 1) ld h1
      · rw [if_neg hg] at hld
        exact ih count ld hld

theorem atAux_price_gt (hashFn : String → Int) :
    ∀ (els : List Autotrader.AtElem) (ld : ListingData),
      ld ∈ (Autotrader.scrapeAux hashFn els).1 → 5000 < ld.price := by
  intro els
  induction els with
  | nil =>
    intro ld hld
    simp [Autotrader.scrapeAux] at hld
  | cons el rest ih =>
    intro ld hld
    rcases hp : Autotrader.parse_listing hashFn el with _ | ld'
    · simp only [atScrapeAux_cons, hp] at hld
      exact ih ld hld
    · simp only [atScrapeAux_cons, hp] at hld
      by_cases hg : ld'.price > 5000
      · rw [if_pos hg] at hld
        rcases List.mem_cons.mp hld with h1 | h1
        · rw [h1]
          exact hg
        · exact ih ld h1
      · rw [if_neg hg] at hld
        exact ih ld hld

/-- C2 (amended).  On the Cars.com and CarGurus yield paths a listing is
yielded — and hence reaches `save_listing` — only when its parsed price
p satisfies 5000 < p ≤ 500000; in particular a parsed price of 0 is
never yielded on any path.  The Autotrader yield path enforces only
5000 < p: it has no upper price bound. -/
theorem C2_amended :
    (∀ (make : String) (links : List CarsCom.CcLink) (ld : ListingData),
        ld ∈ (CarsCom.scrape_listings make links).1 →
        5000 < ld.price ∧ ld.price ≤ 500000) ∧
    (∀ (hashFn : String → Int) (make model : String) (els : List CarGurus.CgElem)
        (ld : ListingData),
        ld ∈ (CarGurus.scrape_listings hashFn make model els).1 →
        5000 < ld.price ∧ ld.price ≤ 500000) ∧
    (∀ (hashFn : String → Int) (els : List Autotrader.AtElem) (ld : ListingData),
        ld ∈ (Autotrader.scrape_listings hashFn els).1 → 5000 < ld.price) :=
  ⟨fun make links ld hld => ccAux_price_bounds make (links.take 60) [] 0 ld hld,
   fun hashFn make model els ld hld =>
     cgAux_price_bounds hashFn make model (els.take 30) 0 ld hld,
   fun hashFn els ld hld => atAux_price_gt hashFn (els.take 30) ld hld⟩

/-- C2 (counterexample).  A concrete Autotrader fragment with price text
`$600,000` parses to price 600000 and is yielded by
`AutotraderScraper.scrape_listings`, although 600000 exceeds 500000. -/
theorem C2_counterexample :
    ((Autotrader.scrape_listings (fun _ => 0)
        [{ attrListingId := some "ATX1", priceText := some "$600,000",
           titleText := some "2022 Tesla Model S" }]).1.map (fun l => l.price))
      = [600000] ∧ (500000 : Int) < 600000 :=
  ⟨by decide, by decide⟩

theorem C2_amended_witness :
    c2Yield ∈ (CarsCom.scrape_listings "Tesla" [c2Link]).1 ∧
    (5000 < c2Yield.price ∧ c2Yield.price ≤ 500000) :=
  ⟨by decide, C2_amended.1 "Tesla" [c2Link] c2Yield (by decide)⟩

/-! ### C8: candidate caps per invocation -/

theorem ccAux_examined_le (mk : String) :
    ∀ (links : List CarsCom.CcLink) (seen : List String) (count : Nat),
      (CarsCom.scrapeAux mk links seen count).2 ≤ links.length := by
  intro links
  induction links with
  | nil =>
    intro seen count
    simp [CarsCom.scrapeAux]
  | cons l rest ih =>
    intro seen count
    rcases hstep : CarsCom.linkStep mk seen l with seen' | ⟨ld', seen'⟩
    · simp only [ccScrapeAux_cons, hstep, List.length_cons]
      exact Nat.succ_le_succ (ih seen' count)
    · simp only [ccScrapeAux_cons, hstep, List.length_cons]
      by_cases hcnt : count + 1 ≥ 30
      · rw [if_pos hcnt]
        exact Nat.succ_le_succ (Nat.zero_le _)
      · rw [if_neg hcnt]
        exact Nat.succ_le_succ (ih seen' (count + 1))

theorem ccAux_yield_le (mk : String) :
    ∀ (links : List CarsCom.CcLink) (seen : List String) (count : Nat),
      count < 30 → (CarsCom.scrapeAux mk links seen count).1.length ≤ 30 - count := by
  intro links
  induction links with
  | nil =>
    intro seen count _
    simp [CarsCom.scrapeAux]
  | cons l rest ih =>
    intro seen count hc
    rcases hstep : CarsCom.linkStep mk seen l with seen' | ⟨ld', seen'⟩
    · simp only [ccScrapeAux_cons, hstep]
      exact ih seen' count hc
    · simp only [ccScrapeAux_cons, hstep]
      by_cases hcnt : count + 1 ≥ 30
      · rw [if_pos hcnt]
        simp only [List.length_singleton]
        omega
      · rw [if_neg hcnt]
        simp only [List.length_cons]
        have hrec := ih seen' (count + 1) (by omega)
        omega

theorem cgAux_examined_le (hashFn : String → Int) (make model : String) :
    ∀ (els : List CarGurus.CgElem) (count : Nat),
      (CarGurus.scrapeAux hashFn make model els count).2 ≤ els.length := by
  intro els
  induction els with
  | nil =>
    intro count
    simp [CarGurus.scrapeAux]
  | cons el rest ih =>
    intro count
    rcases hp : CarGurus.parse_listing hashFn el make model with _ | ld'
    · simp only [cgScrapeAux_cons, hp, List.length_cons]
      exact Nat.succ_le_succ (ih count)
    · simp only [cgScrapeAux_cons, hp, List.length_cons]
      by_cases hg : ld'.price > 5000
      · rw [if_pos hg]
        exact Nat.succ_le_succ (ih (count + 1))
      · rw [if_neg hg]
        exact Nat.succ_le_succ (ih count)

theorem atAux_examined_le (hashFn : String → Int) :
    ∀ (els : List Autotrader.AtElem),
      (Autotrader.scrapeAux hashFn els).2 ≤ els.length := by
  intro els
  induction els with
  | nil => simp [Autotrader.scrapeAux]
  | cons el rest ih =>
    rcases hp : Autotrader.parse_listing hashFn el with _ | ld'
    · simp only [atScrapeAux_cons, hp, List.length_cons]
      exact Nat.succ_le_succ ih
    · simp only [atScrapeAux_cons, hp, List.length_cons]
      by_cases hg : ld'.price > 5000
      · rw [if_pos hg]
        exact Nat.succ_le_succ ih
      · rw [if_neg hg]
        exact Nat.succ_le_succ ih

/-- C8 (amended).  The CarGurus and Autotrader loops examine at most 30
candidate elements per invocation, but the Cars.com loop examines up to
60 candidate links per invocation (`links[:60]`), capping at 30 only the
listings it yields. -/
theorem C8_amended :
    (∀ (make : String) (links : List CarsCom.CcLink),
        (CarsCom.scrape_listings make links).2 ≤ 60) ∧
    (∀ (make : String) (links : List CarsCom.CcLink),
        (CarsCom.scrape_listings make links).1.length ≤ 30) ∧
    (∀ (hashFn : String → Int) (make model : String) (els : List CarGurus.CgElem),
        (CarGurus.scrape_listings hashFn make model els).2 ≤ 30) ∧
    (∀ (hashFn : String → Int) (els : List Autotrader.AtElem),
        (Autotrader.scrape_listings hashFn els).2 ≤ 30) := by
  refine ⟨?_, ?_, ?_, ?_⟩
  · intro make links
    refine le_trans (ccAux_examined_le make (links.take 60) [] 0) ?_
    rw [List.length_take]
    exact min_le_left _ _
  · intro make links
    simpa using ccAux_yield_le make (links.take 60) [] 0 (by omega)
  · intro hashFn make model els
    refine le_trans (cgAux_examined_le hashFn make model (els.take 30) 0) ?_
    rw [List.length_take]
    exact min_le_left _ _
  · intro hashFn els
    refine le_trans (atAux_examined_le hashFn (els.take 30)) ?_
    rw [List.length_take]
    exact min_le_left _ _

/-- C8 (counterexample).  On a results page with 60 candidate links the
Cars.com loop examines all 60 of them, exceeding the claimed cap of
30 candidate elements examined per invocation. -/
theorem C8_counterexample :
    (CarsCom.scrape_listings "Tesla"
        (List.replicate 60 ({ href := none, parentText := none } : CarsCom.CcLink))).2
      = 60 ∧ 30 < 60 :=
  ⟨by decide, by decide⟩

/-! ### C9: the make/model validation gate -/

/-- C9 (amended).  With the price gate already passed, the CarGurus
parser rejects a fragment unless BOTH the make token and the first word
of the model name appear (case-insensitively) in its text — a
conjunction, not the disjunction the claim states — and the Cars.com
parser checks only the make token, ignoring the model entirely. -/
theorem C9_amended :
    (∀ (hashFn : String → Int) (el : CarGurus.CgElem) (make model t w : String)
        (ws : List String),
        el.innerText = some t → 20 ≤ t.length →
        priceFromText t ≠ 0 → priceFromText t ≤ 500000 →
        pyWords (toLowerStr model) = w :: ws →
        (CarGurus.parse_listing hashFn el make model = none ↔
          ¬ (strContains (toLowerStr t) (toLowerStr make) = true ∧
             strContains (toLowerStr t) w = true))) ∧
    (∀ (text eid href make : String),
        priceFromText text ≠ 0 → priceFromText text ≤ 500000 →
        (CarsCom.parse_listing_text text eid href make = none ↔
          strContains (toLowerStr text) (toLowerStr make) = false)) := by
  constructor
  · intro hashFn el make model t w ws hin hlen hp0 hple hwords
    have hnl : ¬ (t.length < 20) := by omega
    have hpb : ¬ (priceFromText t = 0 ∨ priceFromText t > 500000) := by
      push_neg
      exact ⟨hp0, hple⟩
    simp only [CarGurus.parse_listing, hin, if_neg hnl, if_neg hpb, hwords]
    cases hA : strContains (toLowerStr t) (toLowerStr make) <;>
      cases hB : strContains (toLowerStr t) w <;> simp [hA, hB]
  · intro text eid href make hp0 hple
    have hpb : ¬ (priceFromText text = 0 ∨ priceFromText text > 500000) := by
      push_neg
      exact ⟨hp0, hple⟩
    simp only [CarsCom.parse_listing_text, if_neg hpb]
    cases hA : strContains (toLowerStr text) (toLowerStr make) <;> simp [hA]

/-- C9 (counterexample).  A CarGurus fragment that contains the make
token ("tesla") but not the first word of the model name passes the gate
described by the spec yet is rejected by the code. -/
theorem C9_counterexample :
    specGatePasses "Tesla" "Model 3" c9Text = true ∧
    CarGurus.parse_listing (fun _ => 0) { innerText := some c9Text } "Tesla" "Model 3"
      = none :=
  ⟨by decide, by decide⟩

theorem C9_amended_witness :
    ({ innerText := some c9GoodText } : CarGurus.CgElem).innerText = some c9GoodText ∧
    20 ≤ c9GoodText.length ∧
    priceFromText c9GoodText ≠ 0 ∧
    priceFromText c9GoodText ≤ 500000 ∧
    pyWords (toLowerStr "Model 3") = "model" :: ["3"] ∧
    (CarGurus.parse_listing (fun _ => 0) { innerText := some c9GoodText }
        "Tesla" "Model 3" = none ↔
      ¬ (strContains (toLowerStr c9GoodText) (toLowerStr "Tesla") = true ∧
         strContains (toLowerStr c9GoodText) "model" = true)) :=
  ⟨rfl, by decide, by decide, by decide, by decide,
    C9_amended.1 (fun _ => 0) _ "Tesla" "Model 3" c9GoodText "model" ["3"] rfl
      (by decide) (by decide) (by decide) (by decide)⟩

end EvTracker
